import Mathlib

set_option maxRecDepth 40000

/-!
Verification development for the VM assembler / interpreter in `src/script.py`.

The Python source is shallowly embedded below:
pure helpers become Lean functions on `Nat` / `Int`, the interpreter's state
becomes explicit state passing over a `VMState` record, and every Python
operation that can raise (list indexing, `struct.pack` / `struct.unpack`,
`int(..., 16)`, malformed listing lines) is modelled with `Except` / `Option`.
The module-level global `memory` (script.py line 11) is passed into
`interpreter` explicitly and returned in the final state, so that the sharing
of memory across interpreter invocations inside one process is expressible.
-/

/-- Mask constant from script.py line 6: 5-bit opcode mask. -/
def COMMAND_MASK : Nat := 0b11111

/-- Mask constant from script.py line 7: 6-bit register mask. -/
def REGISTER_MASK : Nat := 0b111111

/-- Mask constant from script.py line 8 (declared but never applied to the operand). -/
def ADDRESS_MASK : Nat := 0xFFFFFFFF

/-- Decoded instruction fields: A = opcode, B = register, C = operand. -/
structure Fields where
  A : Nat
  B : Nat
  C : Nat
deriving Repr, DecidableEq

/-- Field extraction from script.py lines 14-21:
A = instruction & COMMAND_MASK, B = (instruction >> 5) & REGISTER_MASK,
C = instruction >> 11 (no mask applied to C). -/
def extract_fields (instruction : Nat) : Fields :=
  ⟨instruction &&& COMMAND_MASK, (instruction >>> 5) &&& REGISTER_MASK, instruction >>> 11⟩

/-- Instruction packing expression from script.py line 56:
`(operand2 << 11) | (operand1 << 5) | command`, on nonnegative values. -/
def encodeInstruction (command operand1 operand2 : Nat) : Nat :=
  (operand2 <<< 11) ||| (operand1 <<< 5) ||| command

/-- Errors raised by the Python source: `ValueError` for a listing line with
fewer than three tokens (`formatError`, carries the 1-based line number),
`ValueError` for a non-hex token (`hexError`, carries the 1-based line number),
`ValueError` for a bad dump range (`rangeError`), `ValueError` for an empty
binary file (`emptyError`), `struct.error` from `struct.pack` / `struct.unpack`
(`structError`), and Python `IndexError` from list indexing (`indexError`). -/
inductive VMError where
  | formatError (line : Nat)
  | hexError (line : Nat)
  | rangeError
  | emptyError
  | structError
  | indexError
deriving Repr, DecidableEq

/-- Python list read `l[i]` at a nonnegative index: `IndexError` when `i ≥ len(l)`. -/
def listGet (l : List Int) (i : Nat) : Except VMError Int :=
  match l.get? i with
  | some v => .ok v
  | none => .error .indexError

/-- Python list assignment `l[i] = v` at a nonnegative index:
`IndexError` when `i ≥ len(l)`. -/
def listSet (l : List Int) (i : Nat) (v : Int) : Except VMError (List Int) :=
  if i < l.length then .ok (l.set i v) else .error .indexError

/-- Interpreter state: the 64-entry register file, the 1024-cell memory
(the module-level global of script.py line 11), and the `result` dictionary
restricted to its `register_<n>` entries. -/
structure VMState where
  register : List Int
  memory : List Int
  result : String → Option Int

/-- Result-dictionary key `register_<B>` (script.py line 115). -/
def regKey (B : Nat) : String := "register_" ++ toString B

/-- One iteration of the instruction loop, script.py lines 99-115: decode,
dispatch on opcode A (6 load constant, 8 read memory, 25 write memory,
10 unary minus, otherwise fall through), then record the touched register's
current value in the result dictionary. -/
def execInstr (s : VMState) (instr : Nat) : Except VMError VMState := do
  let f := extract_fields instr
  let s' ←
    if f.A = 6 then do
      let reg ← listSet s.register f.B (Int.ofNat f.C)
      pure { s with register := reg }
    else if f.A = 8 then do
      let v ← listGet s.memory f.C
      let reg ← listSet s.register f.B v
      pure { s with register := reg }
    else if f.A = 25 then do
      let v ← listGet s.register f.B
      let mem ← listSet s.memory f.C v
      pure { s with memory := mem }
    else if f.A = 10 then do
      let v ← listGet s.memory f.C
      let reg ← listSet s.register f.B (-v)
      pure { s with register := reg }
    else
      pure s
  let v ← listGet s'.register f.B
  pure { s' with result := fun k => if k = regKey f.B then some v else s'.result k }

/-- The instruction loop of script.py lines 99-115 over the whole stream. -/
def runInstrs (s : VMState) : List Nat → Except VMError VMState
  | [] => .ok s
  | instr :: rest =>
    match execInstr s instr with
    | .ok s' => runInstrs s' rest
    | .error e => .error e

/-- One `struct.unpack` of a little-endian unsigned 32-bit word
(script.py line 95): `struct.error` unless given exactly 4 bytes. -/
def unpackWord : List Nat → Except VMError Nat
  | [b0, b1, b2, b3] => .ok (b0 + b1 * 256 + b2 * 65536 + b3 * 16777216)
  | _ => .error .structError

/-- The word-loading comprehension of script.py line 95:
`struct.unpack` applied to each 4-byte slice `binary_data[i:i+4]` for
`i in range(0, len(binary_data), 4)`, here expressed as recursion over
successive 4-byte chunks. -/
def loadInstructions : List Nat → Except VMError (List Nat)
  | [] => .ok []
  | b0 :: b1 :: b2 :: b3 :: rest =>
    match unpackWord [b0, b1, b2, b3], loadInstructions rest with
    | .ok w, .ok ws => .ok (w :: ws)
    | .ok _, .error e => .error e
    | .error e, _ => .error e
  | l =>
    match unpackWord l with
    | .ok w => .ok [w]
    | .error e => .error e

/-- Uppercase hexadecimal digit character for a value below 16. -/
def hexDigit (n : Nat) : Char := if n < 10 then Char.ofNat (48 + n) else Char.ofNat (55 + n)

/-- Uppercase hexadecimal digit list of `n`, most significant first, driven by
a fuel argument that bounds the recursion depth (`fuel ≥ n` always suffices). -/
def hexDigitsAux : Nat → Nat → List Char
  | 0, n => [hexDigit n]
  | fuel + 1, n => if n < 16 then [hexDigit n] else hexDigitsAux fuel (n / 16) ++ [hexDigit (n % 16)]

/-- Uppercase hexadecimal digit string of a natural number, most significant first. -/
def hexDigits (n : Nat) : List Char := hexDigitsAux n n

/-- Python format specification `0<width>X`: zero-padded uppercase hex with the
sign counted inside the width, as used at script.py lines 58 and 118. -/
def pyFormatHexPad (x : Int) (width : Nat) : String :=
  match x with
  | .ofNat n =>
    String.mk (List.replicate (width - (hexDigits n).length) '0' ++ hexDigits n)
  | .negSucc m =>
    String.mk ('-' :: (List.replicate (width - 1 - (hexDigits (m + 1)).length) '0' ++ hexDigits (m + 1)))

/-- Memory-dump key `0x<4-hex-digit address>` (script.py line 118). -/
def memKey (addr : Nat) : String := "0x" ++ pyFormatHexPad (Int.ofNat addr) 4

/-- Log key `line_<n>` (script.py line 58). -/
def logKey (n : Nat) : String := "line_" ++ toString n

/-- The memory-dump comprehension of script.py line 118:
`{f"0x{addr:04X}": memory[addr] for addr in range(start_address, end_address)}`. -/
def memDump (mem : List Int) (s e : Int) : Except VMError (List (String × Int)) :=
  (List.range (e - s).toNat).mapM fun k =>
    match listGet mem (s.toNat + k) with
    | .ok v => .ok (memKey (s.toNat + k), v)
    | .error err => .error err

/-- The module-level global `memory = [0] * 1024` of script.py line 11,
as it stands when the process starts. -/
def initialMemory : List Int := List.replicate 1024 0

/-- The interpreter of script.py lines 73-124. The global `memory` is passed in
as `memory0` and returned inside the final state (the function never resets it),
while `register` (line 83) is freshly allocated per call. Steps in source
order: dump-range check (lines 80-81), empty-input check (lines 92-93),
word loading (line 95), the instruction loop (lines 99-115), and the memory
dump (line 118). The binary file itself is read by the caller; its byte list
is `binary_data`. -/
def interpreter (memory0 : List Int) (binary_data : List Nat)
    (start_address end_address : Int) : Except VMError (VMState × List (String × Int)) :=
  if (0 ≤ start_address ∧ start_address < (memory0.length : Int)) ∧
     (0 ≤ end_address ∧ end_address ≤ (memory0.length : Int)) then
    if binary_data = [] then .error .emptyError
    else
      match loadInstructions binary_data with
      | .error e => .error e
      | .ok instrs =>
        match runInstrs ⟨List.replicate 64 0, memory0, fun _ => none⟩ instrs with
        | .error e => .error e
        | .ok final =>
          match memDump final.memory start_address end_address with
          | .error e => .error e
          | .ok dump => .ok (final, dump)
  else .error .rangeError

/-- Accumulating splitter over the characters of a line: whitespace runs
separate tokens and produce no empty tokens. `acc` holds the characters of the
token currently being read, in reverse. -/
def pySplitAux : List Char → List Char → List (List Char)
  | [], acc => if acc = [] then [] else [acc.reverse]
  | c :: rest, acc =>
    if c.isWhitespace then
      if acc = [] then pySplitAux rest []
      else acc.reverse :: pySplitAux rest []
    else pySplitAux rest (c :: acc)

/-- Python `str.split()` with no separator argument (script.py line 46):
split on whitespace runs, producing no empty tokens (ASCII whitespace model). -/
def pySplit (s : String) : List String :=
  (pySplitAux s.toList []).map fun cs => String.mk cs

/-- Python falsiness of `line.strip()` (script.py line 43): true exactly when
every character of the line is whitespace (ASCII whitespace model). -/
def pyStripEmpty (s : String) : Bool := s.toList.all fun c => c.isWhitespace

/-- Python string slicing `t[2:]` (script.py lines 50-52): drop the first two
characters. -/
def pyDropTwo (t : String) : String := String.mk (t.toList.drop 2)

/-- ASCII hexadecimal digit test. -/
def isHexDigitChar (c : Char) : Bool :=
  (48 ≤ c.toNat && c.toNat ≤ 57) || (97 ≤ c.toNat && c.toNat ≤ 102) ||
    (65 ≤ c.toNat && c.toNat ≤ 70)

/-- Value of an ASCII hexadecimal digit. -/
def hexVal (c : Char) : Nat :=
  if c.toNat ≤ 57 then c.toNat - 48 else if 97 ≤ c.toNat then c.toNat - 87 else c.toNat - 55

/-- Hex digits with single underscores allowed between digits, continuing an
already-read value `acc` (the digit grammar of Python `int(s, 16)`). -/
def hexCore (acc : Nat) : List Char → Option Nat
  | [] => some acc
  | c :: rest =>
    if c = '_' then
      match rest with
      | c2 :: rest2 => if isHexDigitChar c2 then hexCore (acc * 16 + hexVal c2) rest2 else none
      | [] => none
    else if isHexDigitChar c then hexCore (acc * 16 + hexVal c) rest
    else none

/-- Nonempty run of hex digits (underscores only between digits). -/
def hexDigitsStart : List Char → Option Nat
  | [] => none
  | c :: rest => if isHexDigitChar c then hexCore (hexVal c) rest else none

/-- Python `int(s, 16)` (script.py lines 50-52): optional surrounding
whitespace, optional sign, optional `0x` / `0X` prefix with at most one
underscore straight after it, then hex digits with single underscores allowed
between digits. ASCII-only model of digits and whitespace. -/
def pyIntHex (s : String) : Option Int :=
  let cs := (s.toList.dropWhile Char.isWhitespace).reverse.dropWhile Char.isWhitespace |>.reverse
  let signAndRest : Bool × List Char :=
    match cs with
    | '+' :: r => (false, r)
    | '-' :: r => (true, r)
    | r => (false, r)
  let body : Option Nat :=
    match signAndRest.2 with
    | '0' :: c :: r =>
      if c = 'x' ∨ c = 'X' then
        match r with
        | '_' :: r2 => hexDigitsStart r2
        | _ => hexDigitsStart r
      else hexDigitsStart signAndRest.2
    | r => hexDigitsStart r
  match body with
  | none => none
  | some n => some (if signAndRest.1 then -(n : Int) else (n : Int))

/-- Python `<<` on an arbitrary integer, by a nonnegative shift amount. -/
def pyShiftLeft (x : Int) (n : Nat) : Int := x * ((2 ^ n : Nat) : Int)

/-- Python `|` on arbitrary integers, via two's complement:
`Int.negSucc a` is the bitwise complement of `a`. -/
def pyOr : Int → Int → Int
  | .ofNat a, .ofNat b => .ofNat (a ||| b)
  | .ofNat a, .negSucc b => .negSucc (Nat.ldiff b a)
  | .negSucc a, .ofNat b => .negSucc (Nat.ldiff a b)
  | .negSucc a, .negSucc b => .negSucc (a &&& b)

/-- The packing expression of script.py line 56 on Python integers
(which `int(..., 16)` can make negative): `(operand2 << 11) | (operand1 << 5) | command`. -/
def pyEncode (command operand1 operand2 : Int) : Int :=
  pyOr (pyOr (pyShiftLeft operand2 11) (pyShiftLeft operand1 5)) command

/-- One `struct.pack('I', w)` (script.py line 64): the 4 little-endian bytes,
`struct.error` when the value does not fit an unsigned 32-bit integer. -/
def structPackI (w : Int) : Except VMError (List Nat) :=
  if 0 ≤ w ∧ w < 4294967296 then
    .ok [w.toNat % 256, w.toNat / 256 % 256, w.toNat / 65536 % 256, w.toNat / 16777216 % 256]
  else .error .structError

/-- The per-line loop of the assembler, script.py lines 42-59: skip lines that
are empty after strip, fail on fewer than three tokens, parse the first three
tokens as hex after dropping their first two characters, pack the instruction,
and extend the log. `line_num` is the 0-based index of the current line. -/
def assemblerLoop : List String → Nat → Except VMError (List Int × List (String × String))
  | [], _ => .ok ([], [])
  | line :: rest, line_num =>
    if pyStripEmpty line then assemblerLoop rest (line_num + 1)
    else
      match pySplit line with
      | t0 :: t1 :: t2 :: _ =>
        match pyIntHex (pyDropTwo t0), pyIntHex (pyDropTwo t1), pyIntHex (pyDropTwo t2) with
        | some command, some operand1, some operand2 =>
          match assemblerLoop rest (line_num + 1) with
          | .ok (instrs, log) =>
            .ok (pyEncode command operand1 operand2 :: instrs,
                 (logKey (line_num + 1),
                  "0x" ++ pyFormatHexPad (pyEncode command operand1 operand2) 8) :: log)
          | .error e => .error e
        | _, _, _ => .error (.hexError (line_num + 1))
      | _ => .error (.formatError (line_num + 1))

/-- The assembler of script.py lines 24-70: run the per-line loop, then pack
every instruction with `struct.pack('I', ...)` (line 64). On success the first
component is the byte content of the binary output file and the second the log
mapping; on error neither file is written. -/
def assembler (lines : List String) : Except VMError (List Nat × List (String × String)) :=
  match assemblerLoop lines 0 with
  | .error e => .error e
  | .ok (instrs, log) =>
    match instrs.mapM structPackI with
    | .error e => .error e
    | .ok chunks => .ok (chunks.flatten, log)

/-- Decision of whether a listing line parses: it splits into at least three
tokens and the first three tokens are valid hex numerals after dropping their
two-character prefix — exactly the conditions checked by the assembler loop at
script.py lines 46-54. -/
def lineParses (line : String) : Bool :=
  match pySplit line with
  | t0 :: t1 :: t2 :: _ =>
    (pyIntHex (pyDropTwo t0)).isSome && (pyIntHex (pyDropTwo t1)).isSome &&
      (pyIntHex (pyDropTwo t2)).isSome
  | _ => false

/-! ## Codec lemmas -/

theorem or_div_32 (a b : Nat) : (a ||| b) / 32 = a / 32 ||| b / 32 := by
  have h : ∀ x : Nat, x / 32 = x / 2 / 2 / 2 / 2 / 2 := by intro x; omega
  rw [h, h, h]
  simp only [Nat.or_div_two]

theorem or_div_2048 (a b : Nat) : (a ||| b) / 2048 = a / 2048 ||| b / 2048 := by
  have h : ∀ x : Nat, x / 2048 = x / 2 / 2 / 2 / 2 / 2 / 2 / 2 / 2 / 2 / 2 / 2 := by
    intro x; omega
  rw [h, h, h]
  simp only [Nat.or_div_two]

theorem or_mod_32 (a b : Nat) : (a ||| b) % 32 = a % 32 ||| b % 32 := by
  have h := Nat.and_distrib_right a b 31
  have ha := Nat.and_pow_two_sub_one_eq_mod a 5
  have hb := Nat.and_pow_two_sub_one_eq_mod b 5
  have hab := Nat.and_pow_two_sub_one_eq_mod (a ||| b) 5
  norm_num at ha hb hab
  rw [← hab, ← ha, ← hb]
  exact h

theorem or_mod_64 (a b : Nat) : (a ||| b) % 64 = a % 64 ||| b % 64 := by
  have h := Nat.and_distrib_right a b 63
  have ha := Nat.and_pow_two_sub_one_eq_mod a 6
  have hb := Nat.and_pow_two_sub_one_eq_mod b 6
  have hab := Nat.and_pow_two_sub_one_eq_mod (a ||| b) 6
  norm_num at ha hb hab
  rw [← hab, ← ha, ← hb]
  exact h

theorem encodeInstruction_eq_or_arith (A B C : Nat) :
    encodeInstruction A B C = (C * 2048) ||| (B * 32) ||| A := by
  unfold encodeInstruction
  rw [Nat.shiftLeft_eq, Nat.shiftLeft_eq]

theorem encodeInstruction_eq_arith (A B C : Nat) (hA : A < 32) (hB : B < 64) :
    encodeInstruction A B C = 2048 * C + 32 * B + A := by
  rw [encodeInstruction_eq_or_arith]
  have h1 : (2 : Nat) ^ 11 * C + B * 32 = 2 ^ 11 * C ||| B * 32 :=
    Nat.mul_add_lt_is_or (by omega) C
  have h2 : (2 : Nat) ^ 5 * (64 * C + B) + A = 2 ^ 5 * (64 * C + B) ||| A :=
    Nat.mul_add_lt_is_or (by omega) (64 * C + B)
  calc (C * 2048) ||| (B * 32) ||| A
      = ((2 : Nat) ^ 11 * C ||| B * 32) ||| A := by ring_nf
    _ = ((2 : Nat) ^ 11 * C + B * 32) ||| A := by rw [h1]
    _ = ((2 : Nat) ^ 5 * (64 * C + B)) ||| A := by ring_nf
    _ = (2 : Nat) ^ 5 * (64 * C + B) + A := h2.symm
    _ = 2048 * C + 32 * B + A := by ring

theorem extract_fields_arith (w : Nat) :
    extract_fields w = ⟨w % 32, w / 32 % 64, w / 2048⟩ := by
  have hA : w &&& COMMAND_MASK = w % 32 := by
    have := Nat.and_pow_two_sub_one_eq_mod w 5
    norm_num at this
    exact this
  have hB : (w >>> 5) &&& REGISTER_MASK = w / 32 % 64 := by
    have h2 : w >>> 5 = w / 32 := by
      rw [Nat.shiftRight_eq_div_pow]
    rw [h2]
    have := Nat.and_pow_two_sub_one_eq_mod (w / 32) 6
    norm_num at this
    exact this
  have hC : w >>> 11 = w / 2048 := by
    rw [Nat.shiftRight_eq_div_pow]
  unfold extract_fields
  rw [hA, hB, hC]

/-- C1: for every opcode A in [0,32), register B in [0,64) and operand C in
[0,2^21), decoding the word produced by encoding (A,B,C) — that is,
extract_fields((C<<11)|(B<<5)|A) — returns exactly the triple (A,B,C). -/
theorem round_trip_decode_encode (A B C : Nat) (hA : A < 32) (hB : B < 64)
    (hC : C < 2097152) : extract_fields (encodeInstruction A B C) = ⟨A, B, C⟩ := by
  rw [encodeInstruction_eq_arith A B C hA hB, extract_fields_arith]
  simp only [Fields.mk.injEq]
  refine ⟨?_, ?_, ?_⟩ <;> omega

/-- Witness for C1 at the extreme in-range triple (31, 63, 2097151). -/
theorem round_trip_decode_encode_witness :
    extract_fields (encodeInstruction 31 63 2097151) = ⟨31, 63, 2097151⟩ :=
  round_trip_decode_encode 31 63 2097151 (by decide) (by decide) (by decide)

/-- C10: decode is total and is a two-sided inverse of encode on 32-bit words:
re-encoding the decoded fields of any w < 2^32 reproduces w, the decoded
operand is inside its 21-bit range, and w is the encoding of no other valid
field triple. -/
theorem reencode_decoded_word (w : Nat) (hw : w < 4294967296) :
    encodeInstruction (extract_fields w).A (extract_fields w).B (extract_fields w).C = w ∧
    (extract_fields w).A < 32 ∧ (extract_fields w).B < 64 ∧ (extract_fields w).C < 2097152 ∧
    ∀ A B C : Nat, A < 32 → B < 64 → C < 2097152 →
      encodeInstruction A B C = w → Fields.mk A B C = extract_fields w := by
  have huniq : ∀ A B C : Nat, A < 32 → B < 64 → C < 2097152 →
      encodeInstruction A B C = w → Fields.mk A B C = extract_fields w := by
    intro A B C hA hB hC henc
    rw [← henc, round_trip_decode_encode A B C hA hB hC]
  refine ⟨?_, ?_, ?_, ?_, huniq⟩ <;> rw [extract_fields_arith] <;> dsimp only
  · rw [encodeInstruction_eq_arith _ _ _ (by omega) (by omega)]
    omega
  · omega
  · omega
  · omega

/-- Witness for C10 at the word 0xF0F0F0F0. -/
theorem reencode_decoded_word_witness :
    encodeInstruction (extract_fields 4042322160).A (extract_fields 4042322160).B
      (extract_fields 4042322160).C = 4042322160 ∧
    (extract_fields 4042322160).A < 32 ∧ (extract_fields 4042322160).B < 64 ∧
    (extract_fields 4042322160).C < 2097152 ∧
    ∀ A B C : Nat, A < 32 → B < 64 → C < 2097152 →
      encodeInstruction A B C = 4042322160 → Fields.mk A B C = extract_fields 4042322160 :=
  reencode_decoded_word 4042322160 (by decide)

/-- C9 counterexample: encoding the out-of-range opcode 32 (with register 0 and
operand 0) does not produce the word obtained by masking each field to its
declared width — the word is 32, while the masked triple encodes to 0. -/
theorem encode_masking_counterexample :
    encodeInstruction 32 0 0 ≠ encodeInstruction (32 % 32) (0 % 64) (0 % 2097152) := by
  decide

/-- C9 amended: encode applies no masking and no rejection at all — the word is
the plain shift-and-or of the raw fields, so the bits of an out-of-range field
spill into the adjacent higher fields. Decoding the word built from arbitrary
(A,B,C) yields opcode A mod 32, register (B mod 64) OR (A/32 mod 64), and
operand C OR B/64 OR A/2048. -/
theorem encode_overflow_bleeds (A B C : Nat) :
    extract_fields (encodeInstruction A B C) =
      ⟨A % 32, (B % 64) ||| (A / 32 % 64), (C ||| B / 64) ||| A / 2048⟩ := by
  rw [encodeInstruction_eq_or_arith, extract_fields_arith]
  simp only [Fields.mk.injEq]
  refine ⟨?_, ?_, ?_⟩
  · rw [or_mod_32, or_mod_32]
    rw [show C * 2048 % 32 = 0 from by omega, show B * 32 % 32 = 0 from by omega]
    simp
  · rw [or_div_32, or_div_32, or_mod_64, or_mod_64]
    rw [show C * 2048 / 32 % 64 = 0 from by omega, show B * 32 / 32 % 64 = B % 64 from by omega]
    simp
  · rw [or_div_2048, or_div_2048]
    rw [show C * 2048 / 2048 = C from by omega, show B * 32 / 2048 = B / 64 from by omega]

/-! ## Executor step lemmas -/

theorem listGet_ok (l : List Int) (i : Nat) (h : i < l.length) :
    listGet l i = .ok (l.getD i 0) := by
  unfold listGet
  rw [List.getD_eq_getElem?_getD, List.get?_eq_getElem?, List.getElem?_eq_getElem h]
  rfl

theorem listGet_err (l : List Int) (i : Nat) (h : l.length ≤ i) :
    listGet l i = .error .indexError := by
  unfold listGet
  rw [List.get?_eq_getElem?, List.getElem?_eq_none h]

theorem listSet_ok (l : List Int) (i : Nat) (v : Int) (h : i < l.length) :
    listSet l i v = .ok (l.set i v) := by
  unfold listSet
  rw [if_pos h]

theorem listSet_err (l : List Int) (i : Nat) (v : Int) (h : l.length ≤ i) :
    listSet l i v = .error .indexError := by
  unfold listSet
  rw [if_neg (by omega)]

theorem extract_B_lt (w : Nat) : (extract_fields w).B < 64 :=
  lt_of_le_of_lt Nat.and_le_right (by unfold REGISTER_MASK; norm_num)

theorem execInstr_A6 (s : VMState) (instr : Nat) (h6 : (extract_fields instr).A = 6)
    (hB : (extract_fields instr).B < s.register.length) :
    execInstr s instr =
      .ok ⟨s.register.set (extract_fields instr).B (Int.ofNat (extract_fields instr).C),
           s.memory,
           fun k => if k = regKey (extract_fields instr).B
                    then some ((s.register.set (extract_fields instr).B
                                 (Int.ofNat (extract_fields instr).C)).getD
                               (extract_fields instr).B 0)
                    else s.result k⟩ := by
  unfold execInstr
  simp only [h6, if_pos, listSet_ok _ _ _ hB, bind, Except.bind, pure, Except.pure]
  rw [listGet_ok _ _ (by simpa using hB)]

theorem execInstr_A8 (s : VMState) (instr : Nat) (h8 : (extract_fields instr).A = 8)
    (hB : (extract_fields instr).B < s.register.length)
    (hC : (extract_fields instr).C < s.memory.length) :
    execInstr s instr =
      .ok ⟨s.register.set (extract_fields instr).B (s.memory.getD (extract_fields instr).C 0),
           s.memory,
           fun k => if k = regKey (extract_fields instr).B
                    then some ((s.register.set (extract_fields instr).B
                                 (s.memory.getD (extract_fields instr).C 0)).getD
                               (extract_fields instr).B 0)
                    else s.result k⟩ := by
  unfold execInstr
  rw [if_neg (show ¬((extract_fields instr).A = 6) by omega), if_pos h8]
  simp only [listGet_ok _ _ hC, listSet_ok _ _ _ hB, bind, Except.bind, pure, Except.pure]
  rw [listGet_ok _ _ (by simpa using hB)]

theorem execInstr_A25 (s : VMState) (instr : Nat) (h25 : (extract_fields instr).A = 25)
    (hB : (extract_fields instr).B < s.register.length)
    (hC : (extract_fields instr).C < s.memory.length) :
    execInstr s instr =
      .ok ⟨s.register,
           s.memory.set (extract_fields instr).C (s.register.getD (extract_fields instr).B 0),
           fun k => if k = regKey (extract_fields instr).B
                    then some (s.register.getD (extract_fields instr).B 0)
                    else s.result k⟩ := by
  unfold execInstr
  rw [if_neg (show ¬((extract_fields instr).A = 6) by omega),
      if_neg (show ¬((extract_fields instr).A = 8) by omega), if_pos h25]
  simp only [listGet_ok _ _ hB, listSet_ok _ _ _ hC, bind, Except.bind, pure, Except.pure]

theorem execInstr_A10 (s : VMState) (instr : Nat) (h10 : (extract_fields instr).A = 10)
    (hB : (extract_fields instr).B < s.register.length)
    (hC : (extract_fields instr).C < s.memory.length) :
    execInstr s instr =
      .ok ⟨s.register.set (extract_fields instr).B (-(s.memory.getD (extract_fields instr).C 0)),
           s.memory,
           fun k => if k = regKey (extract_fields instr).B
                    then some ((s.register.set (extract_fields instr).B
                                 (-(s.memory.getD (extract_fields instr).C 0))).getD
                               (extract_fields instr).B 0)
                    else s.result k⟩ := by
  unfold execInstr
  rw [if_neg (show ¬((extract_fields instr).A = 6) by omega),
      if_neg (show ¬((extract_fields instr).A = 8) by omega),
      if_neg (show ¬((extract_fields instr).A = 25) by omega), if_pos h10]
  simp only [listGet_ok _ _ hC, listSet_ok _ _ _ hB, bind, Except.bind, pure, Except.pure]
  rw [listGet_ok _ _ (by simpa using hB)]

theorem execInstr_noop (s : VMState) (instr : Nat)
    (h6 : (extract_fields instr).A ≠ 6) (h8 : (extract_fields instr).A ≠ 8)
    (h25 : (extract_fields instr).A ≠ 25) (h10 : (extract_fields instr).A ≠ 10)
    (hB : (extract_fields instr).B < s.register.length) :
    execInstr s instr =
      .ok ⟨s.register, s.memory,
           fun k => if k = regKey (extract_fields instr).B
                    then some (s.register.getD (extract_fields instr).B 0)
                    else s.result k⟩ := by
  unfold execInstr
  rw [if_neg h6, if_neg h8, if_neg h25, if_neg h10]
  simp only [bind, Except.bind, pure, Except.pure]
  rw [listGet_ok _ _ hB]

theorem execInstr_A8_oob (s : VMState) (instr : Nat) (h8 : (extract_fields instr).A = 8)
    (hC : s.memory.length ≤ (extract_fields instr).C) :
    execInstr s instr = .error .indexError := by
  unfold execInstr
  rw [if_neg (show ¬((extract_fields instr).A = 6) by omega), if_pos h8]
  simp only [listGet_err _ _ hC, bind, Except.bind]

theorem execInstr_A25_oob (s : VMState) (instr : Nat) (h25 : (extract_fields instr).A = 25)
    (hB : (extract_fields instr).B < s.register.length)
    (hC : s.memory.length ≤ (extract_fields instr).C) :
    execInstr s instr = .error .indexError := by
  unfold execInstr
  rw [if_neg (show ¬((extract_fields instr).A = 6) by omega),
      if_neg (show ¬((extract_fields instr).A = 8) by omega), if_pos h25]
  simp only [listGet_ok _ _ hB, listSet_err _ _ _ hC, bind, Except.bind]

theorem execInstr_A10_oob (s : VMState) (instr : Nat) (h10 : (extract_fields instr).A = 10)
    (hC : s.memory.length ≤ (extract_fields instr).C) :
    execInstr s instr = .error .indexError := by
  unfold execInstr
  rw [if_neg (show ¬((extract_fields instr).A = 6) by omega),
      if_neg (show ¬((extract_fields instr).A = 8) by omega),
      if_neg (show ¬((extract_fields instr).A = 25) by omega), if_pos h10]
  simp only [listGet_err _ _ hC, bind, Except.bind]

/-- C2: for every instruction word whose decoded fields are (A,B,C) with C
within memory bounds, the per-instruction transition satisfies: A=6 sets
register[B] to C; A=8 sets register[B] to memory[C]; A=25 sets memory[C] to
register[B]; A=10 sets register[B] to -memory[C]; any other A leaves registers
and memory unchanged. -/
theorem step_transition (s : VMState) (instr : Nat)
    (hreg : s.register.length = 64) (hmem : s.memory.length = 1024)
    (hC : (extract_fields instr).C < 1024) :
    ∃ s', execInstr s instr = .ok s' ∧
      ((extract_fields instr).A = 6 →
        s'.register = s.register.set (extract_fields instr).B (Int.ofNat (extract_fields instr).C)
          ∧ s'.memory = s.memory) ∧
      ((extract_fields instr).A = 8 →
        s'.register = s.register.set (extract_fields instr).B
            (s.memory.getD (extract_fields instr).C 0)
          ∧ s'.memory = s.memory) ∧
      ((extract_fields instr).A = 25 →
        s'.memory = s.memory.set (extract_fields instr).C
            (s.register.getD (extract_fields instr).B 0)
          ∧ s'.register = s.register) ∧
      ((extract_fields instr).A = 10 →
        s'.register = s.register.set (extract_fields instr).B
            (-(s.memory.getD (extract_fields instr).C 0))
          ∧ s'.memory = s.memory) ∧
      ((extract_fields instr).A ≠ 6 → (extract_fields instr).A ≠ 8 →
       (extract_fields instr).A ≠ 25 → (extract_fields instr).A ≠ 10 →
        s'.register = s.register ∧ s'.memory = s.memory) := by
  have hB : (extract_fields instr).B < s.register.length := by
    rw [hreg]; exact extract_B_lt instr
  have hC' : (extract_fields instr).C < s.memory.length := by rw [hmem]; exact hC
  by_cases h6 : (extract_fields instr).A = 6
  · refine ⟨_, execInstr_A6 s instr h6 hB, fun _ => ⟨rfl, rfl⟩, ?_, ?_, ?_, ?_⟩
    · intro h; exact absurd h (by omega)
    · intro h; exact absurd h (by omega)
    · intro h; exact absurd h (by omega)
    · intro h _ _ _; exact absurd h6 h
  by_cases h8 : (extract_fields instr).A = 8
  · refine ⟨_, execInstr_A8 s instr h8 hB hC', ?_, fun _ => ⟨rfl, rfl⟩, ?_, ?_, ?_⟩
    · intro h; exact absurd h (by omega)
    · intro h; exact absurd h (by omega)
    · intro h; exact absurd h (by omega)
    · intro _ h _ _; exact absurd h8 h
  by_cases h25 : (extract_fields instr).A = 25
  · refine ⟨_, execInstr_A25 s instr h25 hB hC', ?_, ?_, fun _ => ⟨rfl, rfl⟩, ?_, ?_⟩
    · intro h; exact absurd h (by omega)
    · intro h; exact absurd h (by omega)
    · intro h; exact absurd h (by omega)
    · intro _ _ h _; exact absurd h25 h
  by_cases h10 : (extract_fields instr).A = 10
  · refine ⟨_, execInstr_A10 s instr h10 hB hC', ?_, ?_, ?_, fun _ => ⟨rfl, rfl⟩, ?_⟩
    · intro h; exact absurd h (by omega)
    · intro h; exact absurd h (by omega)
    · intro h; exact absurd h (by omega)
    · intro _ _ _ h; exact absurd h10 h
  · refine ⟨_, execInstr_noop s instr h6 h8 h25 h10 hB, ?_, ?_, ?_, ?_,
      fun _ _ _ _ => ⟨rfl, rfl⟩⟩
    · intro h; exact absurd h h6
    · intro h; exact absurd h h8
    · intro h; exact absurd h h25
    · intro h; exact absurd h h10

/-- Witness for C2 on the zero state and the word encoding (6, 0, 5). -/
theorem step_transition_witness :
    ∃ s', execInstr ⟨List.replicate 64 0, List.replicate 1024 0, fun _ => none⟩ 10246 =
      .ok s' := by
  obtain ⟨s', h, -⟩ :=
    step_transition ⟨List.replicate 64 0, List.replicate 1024 0, fun _ => none⟩ 10246
      (by simp) (by simp) (by decide)
  exact ⟨s', h⟩

/-- C4: for every instruction with opcode in the set 8, 25, 10 whose decoded
operand C is at least 1024, executing that instruction aborts with the fatal
IndexError raised by the bounds check of Python list indexing, and the memory
access does not happen (the step produces no new state). -/
theorem step_oob_fatal (s : VMState) (instr : Nat)
    (hreg : s.register.length = 64) (hmem : s.memory.length = 1024)
    (hA : (extract_fields instr).A = 8 ∨ (extract_fields instr).A = 25 ∨
          (extract_fields instr).A = 10)
    (hC : 1024 ≤ (extract_fields instr).C) :
    execInstr s instr = .error .indexError := by
  have hB : (extract_fields instr).B < s.register.length := by
    rw [hreg]; exact extract_B_lt instr
  have hC' : s.memory.length ≤ (extract_fields instr).C := by rw [hmem]; exact hC
  rcases hA with h | h | h
  · exact execInstr_A8_oob s instr h hC'
  · exact execInstr_A25_oob s instr h hB hC'
  · exact execInstr_A10_oob s instr h hC'

/-- Witness for C4 on the zero state and the word encoding (8, 0, 2000). -/
theorem step_oob_fatal_witness :
    execInstr ⟨List.replicate 64 0, List.replicate 1024 0, fun _ => none⟩ 4096008 =
      .error .indexError :=
  step_oob_fatal ⟨List.replicate 64 0, List.replicate 1024 0, fun _ => none⟩ 4096008
    (by simp) (by simp) (by decide) (by decide)

/-- C5: after every successfully executed instruction with decoded register
field B, the result snapshot's entry for register_B holds the value of
register[B] after that instruction, entries for other keys are untouched
(so repeated writes to B are last-write-wins), and this recording happens for
unrecognized opcodes too, where the recorded value is the register's unchanged
contents. -/
theorem step_records_register (s s' : VMState) (instr : Nat)
    (hreg : s.register.length = 64)
    (hok : execInstr s instr = .ok s') :
    s'.result (regKey (extract_fields instr).B) =
      some (s'.register.getD (extract_fields instr).B 0) ∧
    (∀ k, k ≠ regKey (extract_fields instr).B → s'.result k = s.result k) ∧
    ((extract_fields instr).A ≠ 6 → (extract_fields instr).A ≠ 8 →
     (extract_fields instr).A ≠ 25 → (extract_fields instr).A ≠ 10 →
      s'.register = s.register ∧ s'.memory = s.memory ∧
      s'.result (regKey (extract_fields instr).B) =
        some (s.register.getD (extract_fields instr).B 0)) := by
  have hB : (extract_fields instr).B < s.register.length := by
    rw [hreg]; exact extract_B_lt instr
  by_cases h6 : (extract_fields instr).A = 6
  · rw [execInstr_A6 s instr h6 hB] at hok
    obtain rfl : _ = s' := Except.ok.inj hok
    refine ⟨by simp, fun k hk => by simp [if_neg hk], fun h _ _ _ => absurd h6 h⟩
  by_cases h8 : (extract_fields instr).A = 8
  · by_cases hCb : (extract_fields instr).C < s.memory.length
    · rw [execInstr_A8 s instr h8 hB hCb] at hok
      obtain rfl : _ = s' := Except.ok.inj hok
      refine ⟨by simp, fun k hk => by simp [if_neg hk], fun _ h _ _ => absurd h8 h⟩
    · rw [execInstr_A8_oob s instr h8 (by omega)] at hok
      exact absurd hok (by simp)
  by_cases h25 : (extract_fields instr).A = 25
  · by_cases hCb : (extract_fields instr).C < s.memory.length
    · rw [execInstr_A25 s instr h25 hB hCb] at hok
      obtain rfl : _ = s' := Except.ok.inj hok
      refine ⟨by simp, fun k hk => by simp [if_neg hk], fun _ _ h _ => absurd h25 h⟩
    · rw [execInstr_A25_oob s instr h25 hB (by omega)] at hok
      exact absurd hok (by simp)
  by_cases h10 : (extract_fields instr).A = 10
  · by_cases hCb : (extract_fields instr).C < s.memory.length
    · rw [execInstr_A10 s instr h10 hB hCb] at hok
      obtain rfl : _ = s' := Except.ok.inj hok
      refine ⟨by simp, fun k hk => by simp [if_neg hk], fun _ _ _ h => absurd h10 h⟩
    · rw [execInstr_A10_oob s instr h10 (by omega)] at hok
      exact absurd hok (by simp)
  · rw [execInstr_noop s instr h6 h8 h25 h10 hB] at hok
    obtain rfl : _ = s' := Except.ok.inj hok
    exact ⟨by simp, fun k hk => by simp [if_neg hk], fun _ _ _ _ => ⟨rfl, rfl, by simp⟩⟩

/-- Witness for C5 on the zero state and the word 63, which decodes to the
unrecognized opcode 31 with register field 1. -/
theorem step_records_register_witness :
    (⟨List.replicate 64 0, List.replicate 1024 0,
       fun k => if k = regKey 1 then some 0 else none⟩ : VMState).result (regKey 1) =
      some ((List.replicate 64 (0 : Int)).getD 1 0) := by
  have hok : execInstr ⟨List.replicate 64 0, List.replicate 1024 0, fun _ => none⟩ 63 =
      .ok ⟨List.replicate 64 0, List.replicate 1024 0,
           fun k => if k = regKey 1 then some 0 else none⟩ := by
    rfl
  exact (step_records_register _ _ 63 (by simp) hok).1

/-! ## Interpreter-level theorems -/

/-- C8: a dump range with start_address outside [0,1024) or end_address
outside [0,1024] makes the interpreter raise the fatal range error of
script.py lines 80-81; the quantification over arbitrary binary input shows
the failure happens before the input is even consulted and before any
instruction executes. -/
theorem dump_range_check (memory0 : List Int) (binary_data : List Nat)
    (start_address end_address : Int) (hlen : memory0.length = 1024)
    (hbad : ¬ (0 ≤ start_address ∧ start_address < 1024) ∨
            ¬ (0 ≤ end_address ∧ end_address ≤ 1024)) :
    interpreter memory0 binary_data start_address end_address = .error .rangeError := by
  unfold interpreter
  rw [if_neg]
  intro hcond
  rw [hlen] at hcond
  rcases hbad with hb | hb
  · exact hb ⟨hcond.1.1, by exact_mod_cast hcond.1.2⟩
  · exact hb ⟨hcond.2.1, by exact_mod_cast hcond.2.2⟩

/-- Witness for C8 with start_address 1020 and end_address 2000 against the
1024-cell memory. -/
theorem dump_range_check_witness :
    interpreter initialMemory [] 1020 2000 = .error .rangeError :=
  dump_range_check initialMemory [] 1020 2000 (by simp [initialMemory]) (by omega)

theorem unpackWord_ok_of_len4 (l : List Nat) (h : l.length = 4) :
    ∃ w, unpackWord l = .ok w := by
  rcases l with - | ⟨b0, l⟩
  · simp at h
  rcases l with - | ⟨b1, l⟩
  · simp at h
  rcases l with - | ⟨b2, l⟩
  · simp at h
  rcases l with - | ⟨b3, l⟩
  · simp at h
  rcases l with - | ⟨b4, l⟩
  · exact ⟨_, rfl⟩
  · simp at h

theorem unpackWord_err_of_len_lt4 (l : List Nat) (h0 : l ≠ []) (h : l.length < 4) :
    unpackWord l = .error .structError := by
  rcases l with - | ⟨b0, l⟩
  · exact absurd rfl h0
  rcases l with - | ⟨b1, l⟩
  · rfl
  rcases l with - | ⟨b2, l⟩
  · rfl
  rcases l with - | ⟨b3, l⟩
  · rfl
  · simp at h
    omega

theorem loadInstructions_err_aux (n : Nat) :
    ∀ data : List Nat, data.length ≤ n → data.length % 4 ≠ 0 →
      loadInstructions data = .error .structError := by
  induction n with
  | zero =>
    intro data hle h
    rcases data with - | ⟨b, rest⟩
    · simp at h
    · simp at hle
  | succ n ih =>
    intro data hle h
    rcases data with - | ⟨b0, r⟩
    · simp at h
    rcases r with - | ⟨b1, r⟩
    · rfl
    rcases r with - | ⟨b2, r⟩
    · rfl
    rcases r with - | ⟨b3, r⟩
    · rfl
    simp only [loadInstructions]
    rw [ih r (by simp at hle ⊢; omega) (by simp at h ⊢; omega)]
    rfl

/-- C6: a binary input whose byte length is not a multiple of 4 makes the
interpreter fail with the fatal struct.error raised while unpacking the
trailing short chunk (script.py line 95); the failure happens during word
loading, before the instruction loop starts, so no instruction from such an
input is dispatched and no trailing fragment is silently dropped. -/
theorem misaligned_binary_fatal (memory0 : List Int) (binary_data : List Nat)
    (start_address end_address : Int)
    (hrange : (0 ≤ start_address ∧ start_address < (memory0.length : Int)) ∧
              (0 ≤ end_address ∧ end_address ≤ (memory0.length : Int)))
    (hlen : binary_data.length % 4 ≠ 0) :
    interpreter memory0 binary_data start_address end_address = .error .structError := by
  unfold interpreter
  rw [if_pos hrange, if_neg (show ¬ binary_data = [] by
    intro hnil; rw [hnil] at hlen; simp at hlen)]
  rw [loadInstructions_err_aux binary_data.length binary_data (le_refl _) hlen]

/-- Witness for C6 with a 6-byte binary input. -/
theorem misaligned_binary_fatal_witness :
    interpreter initialMemory [0, 0, 0, 0, 0, 0] 0 0 = .error .structError :=
  misaligned_binary_fatal initialMemory [0, 0, 0, 0, 0, 0] 0 0
    (by simp [initialMemory]) (by decide)

/-- C3 counterexample: values written by one interpreter run are observable in
a subsequent run. The first run executes the words 10246 = (6,0,5) and
25 = (25,0,0), loading 5 into register 0 and storing it at memory address 0.
The module-global memory (threaded here as the first run's final memory) is
then given to a second invocation running 63 = (31,1,0) and 72 = (8,2,0),
whose memory-read instruction records register_2 = 5; the same second program
started on the pristine module-global memory records register_2 = 0. -/
theorem fresh_memory_counterexample :
    (match interpreter initialMemory [6, 40, 0, 0, 25, 0, 0, 0] 0 1 with
     | .ok (st, _) =>
       (match interpreter st.memory [63, 0, 0, 0, 72, 0, 0, 0] 0 1 with
        | .ok (st2, _) => st2.result (regKey 2)
        | .error _ => none)
     | .error _ => none) = some 5 ∧
    (match interpreter initialMemory [63, 0, 0, 0, 72, 0, 0, 0] 0 1 with
     | .ok (st2, _) => st2.result (regKey 2)
     | .error _ => none) = some 0 ∧
    some (5 : Int) ≠ some (0 : Int) :=
  ⟨rfl, rfl, by decide⟩

/-- C3 amended: at the start of every interpreter invocation the 64 registers
are freshly zero-allocated, but memory is the single module-level global
array: it is not reset by the interpreter, so whatever the global holds when
the run starts (including values written by earlier runs in the same process)
is observable, and the run's final memory is handed on unchanged as the
global's new content. The no-op word 63 = (31,1,0) records register_1 = 0
regardless of m, while the read word 72 = (8,2,0) records register_2 = m[0]. -/
theorem interpreter_register_fresh_memory_shared (m : List Int) (v : Int)
    (hlen : m.length = 1024) (hm0 : m.get? 0 = some v) :
    (∃ st dump, interpreter m [63, 0, 0, 0] 0 1 = .ok (st, dump) ∧
       st.result (regKey 1) = some 0 ∧ st.memory = m) ∧
    (∃ st dump, interpreter m [72, 0, 0, 0] 0 1 = .ok (st, dump) ∧
       st.result (regKey 2) = some v ∧ st.memory = m) := by
  obtain rfl : v = m.getD 0 0 := by
    rw [List.getD_eq_getElem?_getD, ← List.get?_eq_getElem?, hm0]
    rfl
  have hlg : listGet m 0 = .ok (m.getD 0 0) := by
    unfold listGet
    rw [hm0]
  have hdump : memDump m 0 1 = .ok [(memKey 0, m.getD 0 0)] := by
    unfold memDump
    rw [show ((1 : Int) - 0).toNat = 1 from rfl]
    rw [show List.range 1 = [0] from rfl]
    simp only [List.mapM_cons, List.mapM_nil]
    rw [show ((0 : Int).toNat + 0) = 0 from rfl, hlg]
    rfl
  have hrange : ((0 : Int) ≤ 0 ∧ (0 : Int) < (m.length : Int)) ∧
      ((0 : Int) ≤ 1 ∧ (1 : Int) ≤ (m.length : Int)) := by
    rw [hlen]
    norm_num
  constructor
  · have h1 : execInstr ⟨List.replicate 64 0, m, fun _ => none⟩ 63 =
        .ok ⟨List.replicate 64 0, m, fun k => if k = regKey 1 then some 0 else none⟩ :=
      execInstr_noop _ 63 (by decide) (by decide) (by decide) (by decide)
        (by show (extract_fields 63).B < (List.replicate 64 (0 : Int)).length
            simp
            decide)
    refine ⟨⟨List.replicate 64 0, m, fun k => if k = regKey 1 then some 0 else none⟩,
            [(memKey 0, m.getD 0 0)], ?_, by simp, rfl⟩
    unfold interpreter
    rw [if_pos hrange, if_neg (by simp),
        show loadInstructions [63, 0, 0, 0] = .ok [63] from rfl]
    simp only [runInstrs, h1]
    rw [hdump]
  · have h2 : execInstr ⟨List.replicate 64 0, m, fun _ => none⟩ 72 =
        .ok ⟨(List.replicate 64 0).set 2 (m.getD 0 0), m,
             fun k => if k = regKey 2 then some (m.getD 0 0) else none⟩ := by
      have h := execInstr_A8 ⟨List.replicate 64 0, m, fun _ => none⟩ 72 (by decide)
        (by show (extract_fields 72).B < (List.replicate 64 (0 : Int)).length
            simp
            decide)
        (by show (extract_fields 72).C < m.length
            rw [hlen]
            decide)
      exact h
    refine ⟨⟨(List.replicate 64 0).set 2 (m.getD 0 0), m,
             fun k => if k = regKey 2 then some (m.getD 0 0) else none⟩,
            [(memKey 0, m.getD 0 0)], ?_, by simp, rfl⟩
    unfold interpreter
    rw [if_pos hrange, if_neg (by simp),
        show loadInstructions [72, 0, 0, 0] = .ok [72] from rfl]
    simp only [runInstrs, h2]
    rw [hdump]

/-- Witness for the C3 amended theorem on the memory left over after a write of
5 to address 0. -/
theorem interpreter_register_fresh_memory_shared_witness :
    ∃ st dump, interpreter (initialMemory.set 0 5) [72, 0, 0, 0] 0 1 = .ok (st, dump) ∧
      st.result (regKey 2) = some 5 ∧ st.memory = initialMemory.set 0 5 :=
  (interpreter_register_fresh_memory_shared (initialMemory.set 0 5) 5
    (by simp [initialMemory]) (by rfl)).2

/-! ## Assembler theorems -/

theorem assemblerLoop_err_propagate (line : String) (rest : List String) (n : Nat) (e : VMError)
    (hgood : pyStripEmpty line = true ∨ lineParses line = true)
    (herr : assemblerLoop rest (n + 1) = .error e) :
    assemblerLoop (line :: rest) n = .error e := by
  by_cases hb : pyStripEmpty line = true
  · simp only [assemblerLoop, if_pos hb]
    exact herr
  rcases hgood with hgb | hp
  · exact absurd hgb hb
  unfold lineParses at hp
  rcases hsp : pySplit line with - | ⟨t0, l⟩
  · rw [hsp] at hp
    simp at hp
  rcases l with - | ⟨t1, l⟩
  · rw [hsp] at hp
    simp at hp
  rcases l with - | ⟨t2, l⟩
  · rw [hsp] at hp
    simp at hp
  rw [hsp] at hp
  simp only [Bool.and_eq_true, Option.isSome_iff_exists] at hp
  obtain ⟨⟨⟨c0, hc0⟩, c1, hc1⟩, c2, hc2⟩ := hp
  simp only [assemblerLoop, if_neg hb, hsp, hc0, hc1, hc2, herr]

theorem assemblerLoop_bad_line (line : String) (rest : List String) (n : Nat)
    (hb : pyStripEmpty line = false) (hbad : lineParses line = false) :
    assemblerLoop (line :: rest) n = .error (.formatError (n + 1)) ∨
    assemblerLoop (line :: rest) n = .error (.hexError (n + 1)) := by
  have hb' : ¬(pyStripEmpty line = true) := by
    rw [hb]
    simp
  unfold lineParses at hbad
  rcases hsp : pySplit line with - | ⟨t0, l⟩
  · left
    simp only [assemblerLoop, if_neg hb', hsp]
  rcases l with - | ⟨t1, l⟩
  · left
    simp only [assemblerLoop, if_neg hb', hsp]
  rcases l with - | ⟨t2, l⟩
  · left
    simp only [assemblerLoop, if_neg hb', hsp]
  rw [hsp] at hbad
  right
  rcases h0 : pyIntHex (pyDropTwo t0) with - | c0
  · simp only [assemblerLoop, if_neg hb', hsp, h0]
  rcases h1 : pyIntHex (pyDropTwo t1) with - | c1
  · simp only [assemblerLoop, if_neg hb', hsp, h0, h1]
  rcases h2 : pyIntHex (pyDropTwo t2) with - | c2
  · simp only [assemblerLoop, if_neg hb', hsp, h0, h1, h2]
  · simp [h0, h1, h2] at hbad

theorem assemblerLoop_parse_failure (pre : List String) (line : String) (post : List String)
    (n : Nat) (hpre : ∀ l ∈ pre, pyStripEmpty l = true ∨ lineParses l = true)
    (hb : pyStripEmpty line = false) (hbad : lineParses line = false) :
    assemblerLoop (pre ++ line :: post) n = .error (.formatError (n + pre.length + 1)) ∨
    assemblerLoop (pre ++ line :: post) n = .error (.hexError (n + pre.length + 1)) := by
  induction pre generalizing n with
  | nil => simpa using assemblerLoop_bad_line line post n hb hbad
  | cons p pre ih =>
    have hgood := hpre p (List.mem_cons_self p pre)
    have harith : n + (p :: pre).length + 1 = (n + 1) + pre.length + 1 := by
      simp only [List.length_cons]
      omega
    rcases ih (n + 1) (fun l hl => hpre l (List.mem_cons_of_mem p hl)) with h | h
    · left
      rw [List.cons_append, harith]
      exact assemblerLoop_err_propagate p (pre ++ line :: post) n _ hgood h
    · right
      rw [List.cons_append, harith]
      exact assemblerLoop_err_propagate p (pre ++ line :: post) n _ hgood h

/-- C7: a source listing whose first offending line (0-based index
`pre.length`, with every earlier line blank after strip or well formed) is
non-blank and either has fewer than three tokens or has a first, second or
third token that is not a valid hex numeral after dropping its 2-character
prefix, makes the assembler fail with a ValueError carrying that line's
1-based number; since the assembler only returns its two output artifacts on
success, neither the binary file content nor the log is produced. -/
theorem assembler_parse_failure (pre : List String) (line : String) (post : List String)
    (hpre : ∀ l ∈ pre, pyStripEmpty l = true ∨ lineParses l = true)
    (hb : pyStripEmpty line = false) (hbad : lineParses line = false) :
    assembler (pre ++ line :: post) = .error (.formatError (pre.length + 1)) ∨
    assembler (pre ++ line :: post) = .error (.hexError (pre.length + 1)) := by
  have h := assemblerLoop_parse_failure pre line post 0 hpre hb hbad
  rw [Nat.zero_add] at h
  unfold assembler
  rcases h with h | h
  · left
    rw [h]
  · right
    rw [h]

/-- Witness for C7: a well-formed first line followed by a two-token line,
reported as line 2. -/
theorem assembler_parse_failure_witness :
    assembler (["0x06 0x00 0x05"] ++ "0x19 0x00" :: []) = .error (.formatError 2) ∨
    assembler (["0x06 0x00 0x05"] ++ "0x19 0x00" :: []) = .error (.hexError 2) :=
  assembler_parse_failure ["0x06 0x00 0x05"] "0x19 0x00" []
    (by intro l hl
        rw [List.mem_singleton] at hl
        rw [hl]
        right
        decide)
    (by decide) (by decide)
